import Mathlib

/-!
Verification of the assignment engine of the student-job-assigner app
(`src/src/App.js`): a shallow embedding of `shuffleArray`,
`generateWeeklyAssignments`, `resetAssignmentHistory` and the `onSnapshot`
state loader, together with proofs of the engine's fairness and
bookkeeping properties.

JavaScript objects keyed by student number are embedded as association
lists (`List (Nat × β)`); `Math.random()`-driven choices are embedded as an
explicit random source `g : Nat → Nat`, where the draw made while
`currentIndex = n` is `g n % n` (mirroring
`Math.floor(Math.random() * currentIndex)`, a uniform pick below
`currentIndex`).  The UI `setMessage` calls are embedded as a list of
emitted message tags.
-/

/-- Hardcoded fallback students `1..23` from `App.js`. -/
def DEFAULT_STUDENTS : List Nat := (List.range 23).map (fun i => i + 1)

/-- Hardcoded fallback job titles from `App.js`. -/
def DEFAULT_JOB_TITLES : List String :=
  ["Line Leader", "Door Holder", "Caboose", "Calendar Helper", "Weather Reporter",
   "Pencil Monitor", "Snack Helper", "Table Washer", "Librarian", "Supply Manager",
   "Chair Stacker", "Plant Waterer", "Pet Helper", "Board Eraser", "Technology Helper",
   "Recycling Monitor", "Paper Passer", "Greeter", "Messenger", "Quiet Captain",
   "Time Keeper", "Flag Holder", "Classroom Helper"]

/-- `[array[i], array[j]] = [array[j], array[i]]` on a list, total: out-of-range
indices leave the list unchanged (in the algorithm they are always in range). -/
def swapL (l : List α) (i j : Nat) : List α :=
  if h : i < l.length ∧ j < l.length then
    (l.set i (l.get ⟨j, h.2⟩)).set j (l.get ⟨i, h.1⟩)
  else l

/-- The `while (currentIndex !== 0)` loop of `shuffleArray`: at
`currentIndex = n + 1` draw `randomIndex = g (n+1) % (n+1)`, decrement, and
swap positions `n` and `randomIndex`. -/
def fisherYatesAux (g : Nat → Nat) : Nat → List α → List α
  | 0, l => l
  | n + 1, l => fisherYatesAux g n (swapL l n (g (n + 1) % (n + 1)))

/-- Fisher-Yates shuffle (`shuffleArray` in `App.js`), with the random
source made explicit. -/
def shuffleArray (g : Nat → Nat) (l : List α) : List α :=
  fisherYatesAux g l.length l

theorem cons_set_perm : ∀ (t : List α) (m : Nat) (a : α) (h : m < t.length),
    (t.get ⟨m, h⟩ :: t.set m a).Perm (a :: t)
  | b :: u, 0, a, _ => List.Perm.swap a b u
  | b :: u, m + 1, a, h => by
    have hm : m < u.length := Nat.lt_of_succ_lt_succ h
    have ih := cons_set_perm u m a hm
    have s1 := List.Perm.swap b (u.get ⟨m, hm⟩) (u.set m a)
    have s3 := List.Perm.swap a b u
    exact (s1.trans (ih.cons b)).trans s3

theorem set_set_swap_perm : ∀ (l : List α) (i j : Nat)
    (hi : i < l.length) (hj : j < l.length),
    ((l.set i (l.get ⟨j, hj⟩)).set j (l.get ⟨i, hi⟩)).Perm l
  | a :: t, 0, 0, _, _ => by simp
  | a :: t, 0, j + 1, _, hj => by
    have hm : j < t.length := Nat.lt_of_succ_lt_succ hj
    simpa [List.set] using cons_set_perm t j a hm
  | a :: t, i + 1, 0, hi, _ => by
    have hm : i < t.length := Nat.lt_of_succ_lt_succ hi
    simpa [List.set] using cons_set_perm t i a hm
  | a :: t, i + 1, j + 1, hi, hj => by
    have hi2 : i < t.length := Nat.lt_of_succ_lt_succ hi
    have hj2 : j < t.length := Nat.lt_of_succ_lt_succ hj
    simpa [List.set] using (set_set_swap_perm t i j hi2 hj2).cons a

theorem swapL_perm (l : List α) (i j : Nat) : (swapL l i j).Perm l := by
  unfold swapL
  split
  · next h => exact set_set_swap_perm l i j h.1 h.2
  · exact List.Perm.refl l

theorem fisherYatesAux_perm (g : Nat → Nat) :
    ∀ (n : Nat) (l : List α), (fisherYatesAux g n l).Perm l
  | 0, l => List.Perm.refl l
  | n + 1, l =>
    (fisherYatesAux_perm g n (swapL l n (g (n + 1) % (n + 1)))).trans
      (swapL_perm l n (g (n + 1) % (n + 1)))

theorem shuffleArray_perm_aux (g : Nat → Nat) (l : List α) :
    (shuffleArray g l).Perm l :=
  fisherYatesAux_perm g l.length l

/-- Message tags for the `setMessage` calls made during an engine operation. -/
inductive Msg where
  | emptyRoster
  | moreJobsThanStudents
  | newCycle
  | notEnoughStudents
  | fallbackRecent (student : Nat) (job : String)
  | fallbackBefore (student : Nat) (job : String)
  | cycleComplete
  deriving DecidableEq

/-- The `appState` object of `App.js` (the two `userDefault*` rosters play no
role in the engine operations verified here and are omitted). -/
structure AppState where
  students : List Nat
  jobTitles : List String
  currentAssignments : List (Nat × String)
  remainingStudentsInCycle : List Nat
  studentJobHistory : List (Nat × List String)
  lastAssignmentDate : Option Nat
  deriving DecidableEq

/-- JavaScript `obj[k] = v` on an object embedded as an association list:
replace the (first) binding of `k` if present, otherwise append at the end. -/
def setA (m : List (Nat × β)) (k : Nat) (v : β) : List (Nat × β) :=
  match m with
  | [] => [(k, v)]
  | (k2, v2) :: rest => if k2 = k then (k, v) :: rest else (k2, v2) :: setA rest k v

/-- `newStudentJobHistory[studentNum] || []`. -/
def histOf (m : List (Nat × List String)) (s : Nat) : List String :=
  (m.lookup s).getD []

/-- `history.slice(-2)`: the last two entries (the whole list when shorter). -/
def lastTwo (l : List α) : List α :=
  l.drop (l.length - 2)

/-- The mutable locals of the `shuffledJobTitles.forEach` loop in
`generateWeeklyAssignments`. -/
structure LoopSt where
  assignments : List (Nat × String)
  history : List (Nat × List String)
  cycle : List Nat
  assignedThisWeek : List Nat
  msgs : List Msg
  deriving DecidableEq

/-- `availableStudentsForThisWeek.filter(s => !studentsAssignedThisWeek.has(s))`. -/
def eligibleFor (pool : List Nat) (assigned : List Nat) : List Nat :=
  pool.filter (fun s => ! assigned.contains s)

/-- The `if (assignedStudent !== null)` block: record the assignment, mark the
student, append to their history and remove them from the cycle. -/
def applyAssign (st : LoopSt) (c : Nat) (job : String) : LoopSt :=
  { assignments := setA st.assignments c job
    history := setA st.history c (histOf st.history c ++ [job])
    cycle := st.cycle.erase c
    assignedThisWeek := c :: st.assignedThisWeek
    msgs := st.msgs }

/-- Body of the `shuffledJobTitles.forEach(job => ...)` loop: skip the job
when no student is eligible, otherwise pick by the three-tier preference
(no recent repeat, then no repeat ever, then first eligible). -/
def assignJob (pool : List Nat) (st : LoopSt) (job : String) : LoopSt :=
  let eligible := eligibleFor pool st.assignedThisWeek
  if eligible.isEmpty then
    { st with msgs := st.msgs ++ [Msg.notEnoughStudents] }
  else
    match eligible.find? (fun s => ! (lastTwo (histOf st.history s)).contains job) with
    | some c => applyAssign st c job
    | none =>
      match eligible.find? (fun s => ! (histOf st.history s).contains job) with
      | some c => applyAssign { st with msgs := st.msgs ++ [Msg.fallbackRecent c job] } c job
      | none =>
        applyAssign { st with msgs := st.msgs ++ [Msg.fallbackBefore eligible.headI job] }
          eligible.headI job

/-- `generateWeeklyAssignments` from `App.js`.  `g1`, `g2` and `g3` are the
random draws consumed by the three `shuffleArray` calls (cycle refill,
weekly pool, job order) and `now` is the timestamp recorded on success. -/
def generateWeeklyAssignments (g1 g2 g3 : Nat → Nat) (now : Nat) (s : AppState) :
    AppState × List Msg :=
  if s.students.length = 0 ∨ s.jobTitles.length = 0 then
    (s, [Msg.emptyRoster])
  else
    let msgs0 := if s.students.length < s.jobTitles.length then [Msg.moreJobsThanStudents] else []
    let cyc1 := if s.remainingStudentsInCycle.isEmpty then shuffleArray g1 s.students
      else s.remainingStudentsInCycle
    let msgs1 := if s.remainingStudentsInCycle.isEmpty then msgs0 ++ [Msg.newCycle] else msgs0
    let pool := shuffleArray g2 s.students
    let jobs := shuffleArray g3 s.jobTitles
    let st := jobs.foldl (assignJob pool)
      { assignments := [], history := s.studentJobHistory, cycle := cyc1,
        assignedThisWeek := [], msgs := msgs1 }
    let msgs2 := if st.cycle.length = 0 ∧ 0 < s.students.length
      then st.msgs ++ [Msg.cycleComplete] else st.msgs
    ({ s with currentAssignments := st.assignments,
              remainingStudentsInCycle := st.cycle,
              studentJobHistory := st.history,
              lastAssignmentDate := some now }, msgs2)

/-- `resetAssignmentHistory` from `App.js`. -/
def resetAssignmentHistory (g : Nat → Nat) (s : AppState) : AppState :=
  { s with currentAssignments := []
           remainingStudentsInCycle := shuffleArray g s.students
           studentJobHistory := []
           lastAssignmentDate := none }

/-- A Firestore snapshot of the state document: `some` fields are present in
the stored document, `none` fields are absent. -/
structure SnapshotData where
  students : Option (List Nat)
  jobTitles : Option (List String)
  currentAssignments : Option (List (Nat × String))
  remainingStudentsInCycle : Option (List Nat)
  studentJobHistory : Option (List (Nat × List String))
  lastAssignmentDate : Option (Option Nat)

/-- The `onSnapshot` state loader of `App.js` (the `docSnap.exists()` branch):
spread the fetched data over the previous state, substituting the hardcoded
defaults for missing rosters and empty values for the other missing fields. -/
def loadState (prev : AppState) (data : SnapshotData) : AppState :=
  { students := data.students.getD DEFAULT_STUDENTS
    jobTitles := data.jobTitles.getD DEFAULT_JOB_TITLES
    currentAssignments := data.currentAssignments.getD []
    remainingStudentsInCycle := data.remainingStudentsInCycle.getD []
    studentJobHistory := data.studentJobHistory.getD []
    lastAssignmentDate := data.lastAssignmentDate.getD prev.lastAssignmentDate }

theorem lookup_cons_ne {k k2 : Nat} (v2 : β) (rest : List (Nat × β)) (h : k ≠ k2) :
    ((k2, v2) :: rest).lookup k = rest.lookup k := by
  rw [List.lookup_cons]
  have hb : (k == k2) = false := by simp [h]
  rw [hb]

theorem setA_lookup_self (m : List (Nat × β)) (k : Nat) (v : β) :
    (setA m k v).lookup k = some v := by
  induction m with
  | nil => simp [setA]
  | cons p rest ih =>
    obtain ⟨k2, v2⟩ := p
    by_cases h : k2 = k
    · simp [setA, h]
    · rw [setA, if_neg h, lookup_cons_ne v2 _ (Ne.symm h)]
      exact ih

theorem setA_lookup_ne (m : List (Nat × β)) (k : Nat) (v : β) (k2 : Nat) (h : k2 ≠ k) :
    (setA m k v).lookup k2 = m.lookup k2 := by
  induction m with
  | nil => simp [setA, lookup_cons_ne v [] h]
  | cons p rest ih =>
    obtain ⟨k3, v3⟩ := p
    by_cases h3 : k3 = k
    · subst h3
      rw [setA, if_pos rfl, lookup_cons_ne v rest h, lookup_cons_ne v3 rest h]
    · by_cases h4 : k2 = k3
      · subst h4
        rw [setA, if_neg h3]
        simp
      · rw [setA, if_neg h3, lookup_cons_ne v3 _ h4, lookup_cons_ne v3 _ h4]
        exact ih

theorem setA_eq_append_of_not_mem (m : List (Nat × β)) (k : Nat) (v : β)
    (h : k ∉ m.map Prod.fst) : setA m k v = m ++ [(k, v)] := by
  induction m with
  | nil => simp [setA]
  | cons p rest ih =>
    obtain ⟨k2, v2⟩ := p
    simp only [List.map_cons, List.mem_cons] at h
    push_neg at h
    simp [setA, Ne.symm h.1, ih h.2]

theorem mem_eligibleFor {pool assigned : List Nat} {x : Nat} :
    x ∈ eligibleFor pool assigned ↔ x ∈ pool ∧ x ∉ assigned := by
  simp [eligibleFor]

theorem headI_mem_of_ne_nil {l : List Nat} (h : l ≠ []) : l.headI ∈ l := by
  cases l with
  | nil => exact absurd rfl h
  | cons a t => simp

theorem assignJob_skip_eq (pool : List Nat) (st : LoopSt) (job : String)
    (h : eligibleFor pool st.assignedThisWeek = []) :
    assignJob pool st job = { st with msgs := st.msgs ++ [Msg.notEnoughStudents] } := by
  simp [assignJob, h]

theorem find?_none_full_of_none_recent (eligible : List Nat)
    (hist : List (Nat × List String)) (job : String)
    (h : eligible.find? (fun s => ! (lastTwo (histOf hist s)).contains job) = none) :
    eligible.find? (fun s => ! (histOf hist s).contains job) = none := by
  rw [List.find?_eq_none] at h ⊢
  intro x hx
  have h2 := h x hx
  have h3 : job ∈ lastTwo (histOf hist x) := by simpa using h2
  have h4 : job ∈ histOf hist x := List.drop_subset _ _ (by simpa [lastTwo] using h3)
  simpa using h4

theorem assignJob_assign_form (pool : List Nat) (st : LoopSt) (job : String)
    (h : eligibleFor pool st.assignedThisWeek ≠ []) :
    ∃ c pre, c ∈ eligibleFor pool st.assignedThisWeek ∧
      (∀ x y, Msg.fallbackRecent x y ∉ pre) ∧
      assignJob pool st job =
        { assignments := setA st.assignments c job
          history := setA st.history c (histOf st.history c ++ [job])
          cycle := st.cycle.erase c
          assignedThisWeek := c :: st.assignedThisWeek
          msgs := st.msgs ++ pre } := by
  have hE : (eligibleFor pool st.assignedThisWeek).isEmpty = false := by
    simpa [List.isEmpty_eq_false] using h
  rcases h1 : (eligibleFor pool st.assignedThisWeek).find?
      (fun s => ! (lastTwo (histOf st.history s)).contains job) with _ | c
  · have h2 := find?_none_full_of_none_recent _ _ _ h1
    refine ⟨(eligibleFor pool st.assignedThisWeek).headI,
      [Msg.fallbackBefore (eligibleFor pool st.assignedThisWeek).headI job],
      headI_mem_of_ne_nil h, by simp, ?_⟩
    simp only [assignJob, hE, Bool.false_eq_true, if_false, h1, h2, applyAssign]
  · refine ⟨c, [], List.mem_of_find?_eq_some h1, by simp, ?_⟩
    simp only [assignJob, hE, Bool.false_eq_true, if_false, h1, applyAssign, List.append_nil]

theorem assignJob_cycle_sublist (pool : List Nat) (st : LoopSt) (job : String) :
    ((assignJob pool st job).cycle).Sublist st.cycle := by
  by_cases h : eligibleFor pool st.assignedThisWeek = []
  · rw [assignJob_skip_eq pool st job h]
  · obtain ⟨c, pre, _, _, heq⟩ := assignJob_assign_form pool st job h
    rw [heq]
    exact List.erase_sublist c st.cycle

theorem assignJob_msgs_append (pool : List Nat) (st : LoopSt) (job : String) :
    ∃ t, (assignJob pool st job).msgs = st.msgs ++ t ∧
      ∀ x y, Msg.fallbackRecent x y ∉ t := by
  by_cases h : eligibleFor pool st.assignedThisWeek = []
  · exact ⟨[Msg.notEnoughStudents], by rw [assignJob_skip_eq pool st job h], by simp⟩
  · obtain ⟨c, pre, _, hpre, heq⟩ := assignJob_assign_form pool st job h
    exact ⟨pre, by rw [heq], hpre⟩

theorem foldl_cycle_sublist (pool : List Nat) (jobs : List String) :
    ∀ st : LoopSt, ((jobs.foldl (assignJob pool) st).cycle).Sublist st.cycle := by
  induction jobs with
  | nil => intro st; exact List.Sublist.refl _
  | cons job rest ih =>
    intro st
    exact (ih (assignJob pool st job)).trans (assignJob_cycle_sublist pool st job)

theorem foldl_msgs_append (pool : List Nat) (jobs : List String) :
    ∀ st : LoopSt, ∃ t, (jobs.foldl (assignJob pool) st).msgs = st.msgs ++ t ∧
      ∀ x y, Msg.fallbackRecent x y ∉ t := by
  induction jobs with
  | nil => intro st; exact ⟨[], by simp, by simp⟩
  | cons job rest ih =>
    intro st
    obtain ⟨t1, h1, hp1⟩ := assignJob_msgs_append pool st job
    obtain ⟨t2, h2, hp2⟩ := ih (assignJob pool st job)
    refine ⟨t1 ++ t2, ?_, ?_⟩
    · rw [List.foldl_cons, h2, h1, List.append_assoc]
    · intro x y hm
      rcases List.mem_append.mp hm with hm | hm
      · exact hp1 x y hm
      · exact hp2 x y hm

theorem cycle_filter_step (cyc1 : List Nat) (hcyc : cyc1.Nodup) (A : List Nat) (c : Nat) :
    (cyc1.filter (fun x => ! A.contains x)).erase c
      = cyc1.filter (fun x => ! (c :: A).contains x) := by
  have hnd : (cyc1.filter (fun x => ! A.contains x)).Nodup := hcyc.filter _
  rw [List.Nodup.erase_eq_filter hnd, List.filter_filter]
  apply List.filter_congr
  intro x _
  by_cases hx : x = c
  · subst hx; simp
  · simp [hx]

theorem foldl_track (pool : List Nat) (cyc1 : List Nat) (hist0 : List (Nat × List String))
    (hcyc : cyc1.Nodup) (jobs : List String) :
    ∀ st : LoopSt,
    (∀ x, x ∈ st.assignedThisWeek ↔ (st.assignments.lookup x).isSome = true) →
    st.cycle = cyc1.filter (fun x => ! st.assignedThisWeek.contains x) →
    (∀ x, st.assignments.lookup x = none → st.history.lookup x = hist0.lookup x) →
    (∀ x j, st.assignments.lookup x = some j →
      histOf st.history x = histOf hist0 x ++ [j]) →
    ((∀ x, x ∈ (jobs.foldl (assignJob pool) st).assignedThisWeek ↔
        (((jobs.foldl (assignJob pool) st).assignments.lookup x).isSome = true)) ∧
      (jobs.foldl (assignJob pool) st).cycle
        = cyc1.filter
            (fun x => ! ((jobs.foldl (assignJob pool) st).assignedThisWeek).contains x) ∧
      (∀ x, (jobs.foldl (assignJob pool) st).assignments.lookup x = none →
        (jobs.foldl (assignJob pool) st).history.lookup x = hist0.lookup x) ∧
      (∀ x j, (jobs.foldl (assignJob pool) st).assignments.lookup x = some j →
        histOf (jobs.foldl (assignJob pool) st).history x = histOf hist0 x ++ [j])) := by
  induction jobs with
  | nil => intro st h1 h2 h3 h4; exact ⟨h1, h2, h3, h4⟩
  | cons job rest ih =>
    intro st h1 h2 h3 h4
    rw [List.foldl_cons]
    by_cases hel : eligibleFor pool st.assignedThisWeek = []
    · rw [assignJob_skip_eq pool st job hel]
      exact ih _ h1 h2 h3 h4
    · obtain ⟨c, pre, hc, _, heq⟩ := assignJob_assign_form pool st job hel
      rw [heq]
      have hcA : c ∉ st.assignedThisWeek := (mem_eligibleFor.mp hc).2
      have hcnone : st.assignments.lookup c = none := by
        rcases hx : st.assignments.lookup c with _ | v
        · rfl
        · exact absurd ((h1 c).mpr (by simp [hx])) hcA
      apply ih
      · show ∀ x, x ∈ c :: st.assignedThisWeek ↔
            (((setA st.assignments c job).lookup x).isSome = true)
        intro x
        by_cases hx : x = c
        · subst hx
          simp [setA_lookup_self]
        · rw [setA_lookup_ne st.assignments c job x hx, List.mem_cons]
          simp only [hx, false_or]
          exact h1 x
      · show st.cycle.erase c
            = cyc1.filter (fun x => ! ((c :: st.assignedThisWeek).contains x))
        rw [h2]
        exact cycle_filter_step cyc1 hcyc st.assignedThisWeek c
      · show ∀ x, (setA st.assignments c job).lookup x = none →
            ((setA st.history c (histOf st.history c ++ [job])).lookup x = hist0.lookup x)
        intro x hxn
        by_cases hx : x = c
        · subst hx
          rw [setA_lookup_self] at hxn
          cases hxn
        · rw [setA_lookup_ne st.assignments c job x hx] at hxn
          rw [setA_lookup_ne st.history c _ x hx]
          exact h3 x hxn
      · show ∀ x j, (setA st.assignments c job).lookup x = some j →
            (histOf (setA st.history c (histOf st.history c ++ [job])) x
              = histOf hist0 x ++ [j])
        intro x j hxj
        by_cases hx : x = c
        · subst hx
          rw [setA_lookup_self] at hxj
          have hj : j = job := by injection hxj with h5; exact h5.symm
          subst hj
          unfold histOf
          rw [setA_lookup_self]
          simp only [Option.getD_some]
          rw [h3 x hcnone]
        · rw [setA_lookup_ne st.assignments c job x hx] at hxj
          unfold histOf
          rw [setA_lookup_ne st.history c _ x hx]
          exact h4 x j hxj

theorem foldl_nodup_aux (pool : List Nat) (jobs : List String) :
    ∀ st : LoopSt,
    jobs.Nodup →
    (∀ k, k ∈ st.assignments.map Prod.fst → k ∈ st.assignedThisWeek) →
    (st.assignments.map Prod.fst).Nodup →
    (st.assignments.map Prod.snd).Nodup →
    (∀ j, j ∈ jobs → j ∉ st.assignments.map Prod.snd) →
    ((jobs.foldl (assignJob pool) st).assignments.map Prod.fst).Nodup ∧
      ((jobs.foldl (assignJob pool) st).assignments.map Prod.snd).Nodup := by
  induction jobs with
  | nil => intro st _ _ hk hv _; exact ⟨hk, hv⟩
  | cons job rest ih =>
    intro st hnd hsub hk hv hfresh
    rw [List.foldl_cons]
    by_cases hel : eligibleFor pool st.assignedThisWeek = []
    · rw [assignJob_skip_eq pool st job hel]
      exact ih _ hnd.of_cons hsub hk hv (fun j hj => hfresh j (List.mem_cons_of_mem _ hj))
    · obtain ⟨c, pre, hc, _, heq⟩ := assignJob_assign_form pool st job hel
      rw [heq]
      have hcA : c ∉ st.assignedThisWeek := (mem_eligibleFor.mp hc).2
      have hckeys : c ∉ st.assignments.map Prod.fst := fun hmem => hcA (hsub c hmem)
      have happ : setA st.assignments c job = st.assignments ++ [(c, job)] :=
        setA_eq_append_of_not_mem _ _ _ hckeys
      have hjobv : job ∉ st.assignments.map Prod.snd := hfresh job (List.mem_cons_self _ _)
      apply ih
      · exact hnd.of_cons
      · show ∀ k, k ∈ (setA st.assignments c job).map Prod.fst → k ∈ c :: st.assignedThisWeek
        intro k hkm
        rw [happ, List.map_append] at hkm
        rcases List.mem_append.mp hkm with hkm | hkm
        · exact List.mem_cons_of_mem _ (hsub k hkm)
        · simp only [List.map_cons, List.map_nil, List.mem_singleton] at hkm
          subst hkm
          exact List.mem_cons_self _ _
      · show ((setA st.assignments c job).map Prod.fst).Nodup
        rw [happ, List.map_append]
        exact (List.perm_append_singleton c _).symm.nodup
          (List.nodup_cons.mpr ⟨hckeys, hk⟩)
      · show ((setA st.assignments c job).map Prod.snd).Nodup
        rw [happ, List.map_append]
        exact (List.perm_append_singleton job _).symm.nodup
          (List.nodup_cons.mpr ⟨hjobv, hv⟩)
      · show ∀ j, j ∈ rest → j ∉ (setA st.assignments c job).map Prod.snd
        intro j hj
        rw [happ, List.map_append]
        intro hjm
        rcases List.mem_append.mp hjm with hjm | hjm
        · exact hfresh j (List.mem_cons_of_mem _ hj) hjm
        · simp only [List.map_cons, List.map_nil, List.mem_singleton] at hjm
          subst hjm
          exact (List.nodup_cons.mp hnd).1 hj

theorem foldl_values_eq (pool : List Nat) (hpool : pool.Nodup) (jobs : List String) :
    ∀ st : LoopSt,
    (∀ k, k ∈ st.assignments.map Prod.fst → k ∈ st.assignedThisWeek) →
    st.assignedThisWeek.length + jobs.length ≤ pool.length →
    (jobs.foldl (assignJob pool) st).assignments.map Prod.snd
      = st.assignments.map Prod.snd ++ jobs := by
  induction jobs with
  | nil => intro st _ _; simp
  | cons job rest ih =>
    intro st hsub hlen
    rw [List.length_cons] at hlen
    have hel : eligibleFor pool st.assignedThisWeek ≠ [] := by
      intro hnil
      have hsubset : ∀ x ∈ pool, x ∈ st.assignedThisWeek := by
        intro x hx
        by_contra hxa
        have hmem : x ∈ eligibleFor pool st.assignedThisWeek :=
          mem_eligibleFor.mpr ⟨hx, hxa⟩
        rw [hnil] at hmem
        exact absurd hmem (List.not_mem_nil x)
      have hle : pool.length ≤ st.assignedThisWeek.length :=
        (hpool.subperm hsubset).length_le
      omega
    obtain ⟨c, pre, hc, _, heq⟩ := assignJob_assign_form pool st job hel
    have hcA : c ∉ st.assignedThisWeek := (mem_eligibleFor.mp hc).2
    have hckeys : c ∉ st.assignments.map Prod.fst := fun hmem => hcA (hsub c hmem)
    have happ : setA st.assignments c job = st.assignments ++ [(c, job)] :=
      setA_eq_append_of_not_mem _ _ _ hckeys
    have hsub2 : ∀ k, k ∈ (setA st.assignments c job).map Prod.fst →
        k ∈ c :: st.assignedThisWeek := by
      intro k hkm
      rw [happ, List.map_append] at hkm
      rcases List.mem_append.mp hkm with hkm | hkm
      · exact List.mem_cons_of_mem _ (hsub k hkm)
      · simp only [List.map_cons, List.map_nil, List.mem_singleton] at hkm
        subst hkm
        exact List.mem_cons_self _ _
    have hlen2 : (c :: st.assignedThisWeek).length + rest.length ≤ pool.length := by
      rw [List.length_cons]
      omega
    have hres := ih (LoopSt.mk (setA st.assignments c job)
        (setA st.history c (histOf st.history c ++ [job]))
        (st.cycle.erase c) (c :: st.assignedThisWeek) (st.msgs ++ pre)) hsub2 hlen2
    rw [List.foldl_cons, heq, hres]
    show (setA st.assignments c job).map Prod.snd ++ rest
      = st.assignments.map Prod.snd ++ (job :: rest)
    rw [happ]
    simp

/-- The cycle queue the loop starts from: refilled by a shuffle when empty. -/
def startCycle (g1 : Nat → Nat) (s : AppState) : List Nat :=
  if s.remainingStudentsInCycle.isEmpty then shuffleArray g1 s.students
  else s.remainingStudentsInCycle

/-- Messages emitted before the assignment loop runs. -/
def startMsgs (s : AppState) : List Msg :=
  if s.remainingStudentsInCycle.isEmpty then
    (if s.students.length < s.jobTitles.length then [Msg.moreJobsThanStudents] else [])
      ++ [Msg.newCycle]
  else if s.students.length < s.jobTitles.length then [Msg.moreJobsThanStudents] else []

/-- The loop state after the full `forEach` over the shuffled job titles. -/
def runLoop (g1 g2 g3 : Nat → Nat) (s : AppState) : LoopSt :=
  (shuffleArray g3 s.jobTitles).foldl (assignJob (shuffleArray g2 s.students))
    (LoopSt.mk [] s.studentJobHistory (startCycle g1 s) [] (startMsgs s))

theorem generate_eq_run (g1 g2 g3 : Nat → Nat) (now : Nat) (s : AppState)
    (h : ¬(s.students.length = 0 ∨ s.jobTitles.length = 0)) :
    generateWeeklyAssignments g1 g2 g3 now s =
      ({ s with currentAssignments := (runLoop g1 g2 g3 s).assignments,
                remainingStudentsInCycle := (runLoop g1 g2 g3 s).cycle,
                studentJobHistory := (runLoop g1 g2 g3 s).history,
                lastAssignmentDate := some now },
       if (runLoop g1 g2 g3 s).cycle.length = 0 ∧ 0 < s.students.length
         then (runLoop g1 g2 g3 s).msgs ++ [Msg.cycleComplete]
         else (runLoop g1 g2 g3 s).msgs) := by
  unfold generateWeeklyAssignments runLoop startCycle startMsgs
  rw [if_neg h]

theorem startMsgs_no_fallbackRecent (s : AppState) (x : Nat) (y : String) :
    Msg.fallbackRecent x y ∉ startMsgs s := by
  unfold startMsgs
  split
  · split <;> simp
  · split <;> simp

/-- C10: `shuffleArray` returns a permutation of its input (same length, same
multiset of elements); hence every cycle-queue refill and reset produces a
queue holding exactly the roster's students. -/
theorem shuffleArray_is_permutation (g : Nat → Nat) (l : List α) :
    (shuffleArray g l).Perm l :=
  shuffleArray_perm_aux g l

/-- C7: `resetAssignmentHistory` empties the assignment map, the history and
the timestamp, reshuffles the cycle queue to a permutation of the current
roster, and leaves both rosters untouched. -/
theorem resetAssignmentHistory_spec (g : Nat → Nat) (s : AppState) :
    (resetAssignmentHistory g s).currentAssignments = [] ∧
    (resetAssignmentHistory g s).studentJobHistory = [] ∧
    (resetAssignmentHistory g s).lastAssignmentDate = none ∧
    ((resetAssignmentHistory g s).remainingStudentsInCycle).Perm s.students ∧
    (resetAssignmentHistory g s).students = s.students ∧
    (resetAssignmentHistory g s).jobTitles = s.jobTitles :=
  ⟨rfl, rfl, rfl, shuffleArray_perm_aux g s.students, rfl, rfl⟩

/-- C6: on an empty student or job roster, `generateWeeklyAssignments` returns
the state unchanged together with only the empty-roster warning. -/
theorem generateWeeklyAssignments_empty_roster (g1 g2 g3 : Nat → Nat) (now : Nat)
    (s : AppState) (h : s.students = [] ∨ s.jobTitles = []) :
    generateWeeklyAssignments g1 g2 g3 now s = (s, [Msg.emptyRoster]) := by
  unfold generateWeeklyAssignments
  rw [if_pos]
  rcases h with h | h <;> simp [h]

/-- Witness for C6 at the spec's example state (`students = []`,
`jobTitles = ["A"]`). -/
theorem generateWeeklyAssignments_empty_roster_witness :
    generateWeeklyAssignments (fun _ => 0) (fun _ => 0) (fun _ => 0) 0
        (AppState.mk [] ["A"] [] [] [] none)
      = (AppState.mk [] ["A"] [] [] [] none, [Msg.emptyRoster]) :=
  generateWeeklyAssignments_empty_roster _ _ _ _ _ (Or.inl rfl)

/-- C9: the tier-2 branch of the selection loop is unreachable: when the
tier-1 search (no recent repeat) finds nobody, the tier-2 search (no repeat
ever) finds nobody either, since a job in a student's last two history
entries is in their full history; consequently the tier-2 warning is never
emitted by a run of `generateWeeklyAssignments`. -/
theorem tier2_warning_never_emitted (g1 g2 g3 : Nat → Nat) (now : Nat)
    (s : AppState) (c : Nat) (j : String)
    (eligible : List Nat) (hist : List (Nat × List String)) :
    (eligible.find? (fun t => ! (lastTwo (histOf hist t)).contains j) = none →
      eligible.find? (fun t => ! (histOf hist t).contains j) = none) ∧
    Msg.fallbackRecent c j ∉ (generateWeeklyAssignments g1 g2 g3 now s).2 := by
  refine ⟨find?_none_full_of_none_recent eligible hist j, ?_⟩
  by_cases h : s.students.length = 0 ∨ s.jobTitles.length = 0
  · unfold generateWeeklyAssignments
    rw [if_pos h]
    simp
  · rw [generate_eq_run g1 g2 g3 now s h]
    obtain ⟨t, ht, hpt⟩ := foldl_msgs_append (shuffleArray g2 s.students)
      (shuffleArray g3 s.jobTitles)
      (LoopSt.mk [] s.studentJobHistory (startCycle g1 s) [] (startMsgs s))
    have hmsgs : (runLoop g1 g2 g3 s).msgs = startMsgs s ++ t := ht
    intro hmem
    simp only [] at hmem
    split at hmem
    · rcases List.mem_append.mp hmem with hmem | hmem
      · rw [hmsgs] at hmem
        rcases List.mem_append.mp hmem with hmem | hmem
        · exact startMsgs_no_fallbackRecent s c j hmem
        · exact hpt c j hmem
      · simp at hmem
    · rw [hmsgs] at hmem
      rcases List.mem_append.mp hmem with hmem | hmem
      · exact startMsgs_no_fallbackRecent s c j hmem
      · exact hpt c j hmem

/-- Witness for C9: a student whose last two entries are both the job, so
tier 1 finds nobody, and indeed tier 2 finds nobody either and the run
emits no tier-2 warning. -/
theorem tier2_warning_never_emitted_witness :
    ([1] : List Nat).find? (fun t => ! (histOf [(1, ["A", "A"])] t).contains "A")
        = none ∧
    Msg.fallbackRecent 1 "A" ∉ (generateWeeklyAssignments (fun _ => 0) (fun _ => 0)
      (fun _ => 0) 0 (AppState.mk [1] ["A"] [] [1] [(1, ["A", "A"])] none)).2 :=
  ⟨(tier2_warning_never_emitted (fun _ => 0) (fun _ => 0) (fun _ => 0) 0
      (AppState.mk [1] ["A"] [] [1] [(1, ["A", "A"])] none) 1 "A" [1]
      [(1, ["A", "A"])]).1 (by decide),
   (tier2_warning_never_emitted (fun _ => 0) (fun _ => 0) (fun _ => 0) 0
      (AppState.mk [1] ["A"] [] [1] [(1, ["A", "A"])] none) 1 "A" [1]
      [(1, ["A", "A"])]).2⟩

/-- C4: when the cycle queue starts empty (and the rosters are non-empty and
duplicate-free) the run first refills it with a shuffled permutation of the
full current roster and announces the new cycle, and only then assigns: the
final queue is exactly that full-roster permutation with precisely the
students assigned this run removed; when the queue starts non-empty, no
student is added during the run (the final queue is a sublist of the
starting queue). -/
theorem generateWeeklyAssignments_cycle_refill_shrink (g1 g2 g3 : Nat → Nat)
    (now : Nat) (s : AppState) :
    (s.remainingStudentsInCycle = [] → s.students ≠ [] → s.jobTitles ≠ [] →
      s.students.Nodup →
      (shuffleArray g1 s.students).Perm s.students ∧
      Msg.newCycle ∈ (generateWeeklyAssignments g1 g2 g3 now s).2 ∧
      (generateWeeklyAssignments g1 g2 g3 now s).1.remainingStudentsInCycle
        = (shuffleArray g1 s.students).filter
            (fun x => (((generateWeeklyAssignments g1 g2 g3
                now s).1.currentAssignments).lookup x).isNone)) ∧
    (s.remainingStudentsInCycle ≠ [] →
      ((generateWeeklyAssignments g1 g2 g3 now s).1.remainingStudentsInCycle).Sublist
        s.remainingStudentsInCycle) := by
  constructor
  · intro hq hs hj hnd
    have h : ¬(s.students.length = 0 ∨ s.jobTitles.length = 0) := by
      simp [List.length_eq_zero, hs, hj]
    have hstart : startCycle g1 s = shuffleArray g1 s.students := by
      unfold startCycle
      rw [if_pos (by simp [hq])]
    have hcyc : (startCycle g1 s).Nodup := by
      rw [hstart]
      exact (shuffleArray_perm_aux g1 s.students).symm.nodup hnd
    obtain ⟨h1, h2, _, _⟩ := foldl_track (shuffleArray g2 s.students) (startCycle g1 s)
      s.studentJobHistory hcyc (shuffleArray g3 s.jobTitles)
      (LoopSt.mk [] s.studentJobHistory (startCycle g1 s) [] (startMsgs s))
      (by intro x; simp) (by simp) (by intro x _; rfl) (by intro x j hx; cases hx)
    have h1' : ∀ x, x ∈ (runLoop g1 g2 g3 s).assignedThisWeek ↔
        ((runLoop g1 g2 g3 s).assignments.lookup x).isSome = true := h1
    have h2' : (runLoop g1 g2 g3 s).cycle = (startCycle g1 s).filter
        (fun x => ! ((runLoop g1 g2 g3 s).assignedThisWeek).contains x) := h2
    refine ⟨shuffleArray_perm_aux g1 s.students, ?_, ?_⟩
    · rw [generate_eq_run g1 g2 g3 now s h]
      obtain ⟨t, ht, _⟩ := foldl_msgs_append (shuffleArray g2 s.students)
        (shuffleArray g3 s.jobTitles)
        (LoopSt.mk [] s.studentJobHistory (startCycle g1 s) [] (startMsgs s))
      have hmsgs : (runLoop g1 g2 g3 s).msgs = startMsgs s ++ t := ht
      have hnc : Msg.newCycle ∈ startMsgs s := by
        unfold startMsgs
        rw [if_pos (by simp [hq])]
        simp
      have hin : Msg.newCycle ∈ (runLoop g1 g2 g3 s).msgs := by
        rw [hmsgs]
        exact List.mem_append_left _ hnc
      show Msg.newCycle ∈
        (if (runLoop g1 g2 g3 s).cycle.length = 0 ∧ 0 < s.students.length
          then (runLoop g1 g2 g3 s).msgs ++ [Msg.cycleComplete]
          else (runLoop g1 g2 g3 s).msgs)
      split
      · exact List.mem_append_left _ hin
      · exact hin
    · rw [generate_eq_run g1 g2 g3 now s h]
      show (runLoop g1 g2 g3 s).cycle
        = (shuffleArray g1 s.students).filter
            (fun x => (((runLoop g1 g2 g3 s).assignments).lookup x).isNone)
      rw [← hstart, h2']
      apply List.filter_congr
      intro x _
      rw [Bool.eq_iff_iff]
      simp only [Bool.not_eq_true', Option.isNone_iff_eq_none]
      constructor
      · intro hc
        have hc2 : x ∉ (runLoop g1 g2 g3 s).assignedThisWeek := by simpa using hc
        rcases ho : ((runLoop g1 g2 g3 s).assignments).lookup x with _ | v
        · rfl
        · exact absurd ((h1' x).mpr (by rw [ho]; rfl)) hc2
      · intro ho
        have hx : x ∉ (runLoop g1 g2 g3 s).assignedThisWeek := by
          intro hx
          have hs2 := (h1' x).mp hx
          rw [ho] at hs2
          cases hs2
        simpa using hx
  · intro hq
    by_cases h : s.students.length = 0 ∨ s.jobTitles.length = 0
    · unfold generateWeeklyAssignments
      rw [if_pos h]
    · rw [generate_eq_run g1 g2 g3 now s h]
      have hsub := foldl_cycle_sublist (shuffleArray g2 s.students)
        (shuffleArray g3 s.jobTitles)
        (LoopSt.mk [] s.studentJobHistory (startCycle g1 s) [] (startMsgs s))
      have hstart : startCycle g1 s = s.remainingStudentsInCycle := by
        unfold startCycle
        rw [if_neg (by simp [hq])]
      show ((runLoop g1 g2 g3 s).cycle).Sublist s.remainingStudentsInCycle
      rw [← hstart]
      exact hsub

/-- Witness for C4 at a concrete state with an empty cycle queue. -/
theorem generateWeeklyAssignments_cycle_refill_shrink_witness :
    (shuffleArray (fun _ => 0) [1, 2]).Perm [1, 2] ∧
    Msg.newCycle ∈ (generateWeeklyAssignments (fun _ => 0) (fun _ => 0) (fun _ => 0) 0
      (AppState.mk [1, 2] ["A"] [] [] [] none)).2 ∧
    (generateWeeklyAssignments (fun _ => 0) (fun _ => 0) (fun _ => 0) 0
      (AppState.mk [1, 2] ["A"] [] [] [] none)).1.remainingStudentsInCycle
      = (shuffleArray (fun _ => 0) [1, 2]).filter
          (fun x => (((generateWeeklyAssignments (fun _ => 0) (fun _ => 0) (fun _ => 0) 0
              (AppState.mk [1, 2] ["A"] [] [] [] none)).1.currentAssignments).lookup
                x).isNone) :=
  (generateWeeklyAssignments_cycle_refill_shrink (fun _ => 0) (fun _ => 0) (fun _ => 0) 0
    (AppState.mk [1, 2] ["A"] [] [] [] none)).1 rfl (by decide) (by decide) (by decide)

/-- C1: starting from a valid state (duplicate-free assignment map and job
roster), one run of `generateWeeklyAssignments` yields an assignment map in
which each student holds at most one job and each job title appears as a
value at most once. -/
theorem generateWeeklyAssignments_map_one_to_one (g1 g2 g3 : Nat → Nat) (now : Nat)
    (s : AppState)
    (hkeys : (s.currentAssignments.map Prod.fst).Nodup)
    (hvals : (s.currentAssignments.map Prod.snd).Nodup)
    (hjobs : s.jobTitles.Nodup) :
    ((generateWeeklyAssignments g1 g2 g3 now s).1.currentAssignments.map Prod.fst).Nodup ∧
    ((generateWeeklyAssignments g1 g2 g3 now s).1.currentAssignments.map Prod.snd).Nodup := by
  by_cases h : s.students.length = 0 ∨ s.jobTitles.length = 0
  · unfold generateWeeklyAssignments
    rw [if_pos h]
    exact ⟨hkeys, hvals⟩
  · rw [generate_eq_run g1 g2 g3 now s h]
    have hjobs2 : (shuffleArray g3 s.jobTitles).Nodup :=
      (shuffleArray_perm_aux g3 s.jobTitles).symm.nodup hjobs
    exact foldl_nodup_aux (shuffleArray g2 s.students) (shuffleArray g3 s.jobTitles)
      (LoopSt.mk [] s.studentJobHistory (startCycle g1 s) [] (startMsgs s))
      hjobs2 (by simp) (by simp) (by simp) (by simp)

/-- Witness for C1 at a concrete state. -/
theorem generateWeeklyAssignments_map_one_to_one_witness :
    ((generateWeeklyAssignments (fun _ => 0) (fun _ => 0) (fun _ => 0) 0
      (AppState.mk [1, 2] ["A", "B"] [] [1, 2] [] none)).1.currentAssignments.map
        Prod.fst).Nodup ∧
    ((generateWeeklyAssignments (fun _ => 0) (fun _ => 0) (fun _ => 0) 0
      (AppState.mk [1, 2] ["A", "B"] [] [1, 2] [] none)).1.currentAssignments.map
        Prod.snd).Nodup :=
  generateWeeklyAssignments_map_one_to_one (fun _ => 0) (fun _ => 0) (fun _ => 0) 0
    (AppState.mk [1, 2] ["A", "B"] [] [1, 2] [] none)
    (by decide) (by decide) (by decide)

/-- C2: with duplicate-free rosters and at least as many students as job
titles, one run assigns every job title to exactly one student (each title
occurs exactly once among the values of the new assignment map). -/
theorem generateWeeklyAssignments_covers_all_jobs (g1 g2 g3 : Nat → Nat) (now : Nat)
    (s : AppState)
    (hstu : s.students.Nodup) (hjob : s.jobTitles.Nodup)
    (hlen : s.jobTitles.length ≤ s.students.length) :
    ∀ j ∈ s.jobTitles,
      ((generateWeeklyAssignments g1 g2 g3 now s).1.currentAssignments.map
        Prod.snd).count j = 1 := by
  intro j hj
  by_cases h : s.students.length = 0 ∨ s.jobTitles.length = 0
  · exfalso
    have hjnil : s.jobTitles = [] := by
      rcases h with h | h
      · exact List.length_eq_zero.mp (by omega)
      · exact List.length_eq_zero.mp h
    rw [hjnil] at hj
    exact List.not_mem_nil j hj
  · rw [generate_eq_run g1 g2 g3 now s h]
    have hpool : (shuffleArray g2 s.students).Nodup :=
      (shuffleArray_perm_aux g2 s.students).symm.nodup hstu
    have hlen2 : (List.length ([] : List Nat)) + (shuffleArray g3 s.jobTitles).length
        ≤ (shuffleArray g2 s.students).length := by
      rw [(shuffleArray_perm_aux g3 s.jobTitles).length_eq,
        (shuffleArray_perm_aux g2 s.students).length_eq]
      simpa using hlen
    have hvals := foldl_values_eq (shuffleArray g2 s.students) hpool
      (shuffleArray g3 s.jobTitles)
      (LoopSt.mk [] s.studentJobHistory (startCycle g1 s) [] (startMsgs s))
      (by simp) hlen2
    show (((runLoop g1 g2 g3 s).assignments).map Prod.snd).count j = 1
    have hvals2 : ((runLoop g1 g2 g3 s).assignments).map Prod.snd
        = shuffleArray g3 s.jobTitles := by
      have h0 : (LoopSt.mk ([] : List (Nat × String)) s.studentJobHistory
          (startCycle g1 s) [] (startMsgs s)).assignments.map Prod.snd = [] := rfl
      rw [show (runLoop g1 g2 g3 s).assignments
          = ((shuffleArray g3 s.jobTitles).foldl
              (assignJob (shuffleArray g2 s.students))
              (LoopSt.mk [] s.studentJobHistory (startCycle g1 s) []
                (startMsgs s))).assignments from rfl]
      rw [hvals, h0, List.nil_append]
    rw [hvals2, (shuffleArray_perm_aux g3 s.jobTitles).count_eq j]
    exact List.count_eq_one_of_mem hjob hj

/-- Witness for C2 at the spec's example state (`students = [1,2,3]`,
`jobTitles = ["A","B"]`, empty history, full cycle queue). -/
theorem generateWeeklyAssignments_covers_all_jobs_witness :
    ((generateWeeklyAssignments (fun _ => 0) (fun _ => 0) (fun _ => 0) 0
      (AppState.mk [1, 2, 3] ["A", "B"] [] [1, 2, 3] [] none)).1.currentAssignments.map
        Prod.snd).count "A" = 1 :=
  generateWeeklyAssignments_covers_all_jobs (fun _ => 0) (fun _ => 0) (fun _ => 0) 0
    (AppState.mk [1, 2, 3] ["A", "B"] [] [1, 2, 3] [] none)
    (by decide) (by decide) (by decide) "A" (by decide)

/-- C5: in a run over non-empty, duplicate-free rosters, the final cycle
queue is exactly the starting queue (refilled first if it was empty) with
the students assigned this run removed, order preserved; an assigned
student's history gains exactly their new job at the end and they leave the
queue; an unassigned student's history is untouched. -/
theorem generateWeeklyAssignments_per_student_update (g1 g2 g3 : Nat → Nat)
    (now : Nat) (s : AppState)
    (hs : s.students ≠ []) (hj : s.jobTitles ≠ [])
    (hstu : s.students.Nodup) (hq : s.remainingStudentsInCycle.Nodup) :
    ((generateWeeklyAssignments g1 g2 g3 now s).1.remainingStudentsInCycle
      = (if s.remainingStudentsInCycle.isEmpty then shuffleArray g1 s.students
          else s.remainingStudentsInCycle).filter
          (fun x => (((generateWeeklyAssignments g1 g2 g3
              now s).1.currentAssignments).lookup x).isNone)) ∧
    (∀ stu, ((generateWeeklyAssignments g1 g2 g3 now s).1.currentAssignments).lookup stu
        = none →
      histOf (generateWeeklyAssignments g1 g2 g3 now s).1.studentJobHistory stu
        = histOf s.studentJobHistory stu) ∧
    (∀ stu j, ((generateWeeklyAssignments g1 g2 g3 now s).1.currentAssignments).lookup stu
        = some j →
      histOf (generateWeeklyAssignments g1 g2 g3 now s).1.studentJobHistory stu
        = histOf s.studentJobHistory stu ++ [j] ∧
      stu ∉ (generateWeeklyAssignments g1 g2 g3 now s).1.remainingStudentsInCycle) := by
  have h : ¬(s.students.length = 0 ∨ s.jobTitles.length = 0) := by
    simp [List.length_eq_zero, hs, hj]
  have hcyc : (startCycle g1 s).Nodup := by
    unfold startCycle
    split
    · exact (shuffleArray_perm_aux g1 s.students).symm.nodup hstu
    · exact hq
  obtain ⟨h1, h2, h3, h4⟩ := foldl_track (shuffleArray g2 s.students) (startCycle g1 s)
    s.studentJobHistory hcyc (shuffleArray g3 s.jobTitles)
    (LoopSt.mk [] s.studentJobHistory (startCycle g1 s) [] (startMsgs s))
    (by intro x; simp) (by simp) (by intro x _; rfl) (by intro x j hx; cases hx)
  have h1' : ∀ x, x ∈ (runLoop g1 g2 g3 s).assignedThisWeek ↔
      ((runLoop g1 g2 g3 s).assignments.lookup x).isSome = true := h1
  have h2' : (runLoop g1 g2 g3 s).cycle = (startCycle g1 s).filter
      (fun x => ! ((runLoop g1 g2 g3 s).assignedThisWeek).contains x) := h2
  have h3' : ∀ x, (runLoop g1 g2 g3 s).assignments.lookup x = none →
      (runLoop g1 g2 g3 s).history.lookup x = s.studentJobHistory.lookup x := h3
  have h4' : ∀ x j, (runLoop g1 g2 g3 s).assignments.lookup x = some j →
      histOf (runLoop g1 g2 g3 s).history x = histOf s.studentJobHistory x ++ [j] := h4
  rw [generate_eq_run g1 g2 g3 now s h]
  refine ⟨?_, ?_, ?_⟩
  · show (runLoop g1 g2 g3 s).cycle
      = (if s.remainingStudentsInCycle.isEmpty then shuffleArray g1 s.students
          else s.remainingStudentsInCycle).filter
          (fun x => (((runLoop g1 g2 g3 s).assignments).lookup x).isNone)
    rw [show (if s.remainingStudentsInCycle.isEmpty then shuffleArray g1 s.students
        else s.remainingStudentsInCycle) = startCycle g1 s from rfl]
    rw [h2']
    apply List.filter_congr
    intro x _
    rw [Bool.eq_iff_iff]
    simp only [Bool.not_eq_true', Option.isNone_iff_eq_none]
    constructor
    · intro hc
      have hc2 : x ∉ (runLoop g1 g2 g3 s).assignedThisWeek := by simpa using hc
      rcases ho : ((runLoop g1 g2 g3 s).assignments).lookup x with _ | v
      · rfl
      · exact absurd ((h1' x).mpr (by rw [ho]; rfl)) hc2
    · intro ho
      have hx : x ∉ (runLoop g1 g2 g3 s).assignedThisWeek := by
        intro hx
        have hs2 := (h1' x).mp hx
        rw [ho] at hs2
        cases hs2
      simpa using hx
  · intro stu hnone
    have hnone2 : (runLoop g1 g2 g3 s).assignments.lookup stu = none := hnone
    show histOf (runLoop g1 g2 g3 s).history stu = histOf s.studentJobHistory stu
    unfold histOf
    rw [h3' stu hnone2]
  · intro stu j hsome
    have hsome2 : (runLoop g1 g2 g3 s).assignments.lookup stu = some j := hsome
    refine ⟨h4' stu j hsome2, ?_⟩
    intro hmem
    have hmem2 : stu ∈ (runLoop g1 g2 g3 s).cycle := hmem
    rw [h2'] at hmem2
    have hnc := (List.mem_filter.mp hmem2).2
    have hnc2 : stu ∉ (runLoop g1 g2 g3 s).assignedThisWeek := by simpa using hnc
    exact hnc2 ((h1' stu).mpr (by rw [hsome2]; rfl))

/-- Witness for C5 at a concrete state. -/
theorem generateWeeklyAssignments_per_student_update_witness :
    ((generateWeeklyAssignments (fun _ => 0) (fun _ => 0) (fun _ => 0) 0
      (AppState.mk [1, 2] ["A"] [] [1, 2] [] none)).1.remainingStudentsInCycle
      = (if ([1, 2] : List Nat).isEmpty then shuffleArray (fun _ => 0) [1, 2]
          else [1, 2]).filter
          (fun x => (((generateWeeklyAssignments (fun _ => 0) (fun _ => 0) (fun _ => 0) 0
              (AppState.mk [1, 2] ["A"] [] [1, 2] [] none)).1.currentAssignments).lookup
                x).isNone)) ∧
    (∀ stu, ((generateWeeklyAssignments (fun _ => 0) (fun _ => 0) (fun _ => 0) 0
        (AppState.mk [1, 2] ["A"] [] [1, 2] [] none)).1.currentAssignments).lookup stu
        = none →
      histOf (generateWeeklyAssignments (fun _ => 0) (fun _ => 0) (fun _ => 0) 0
          (AppState.mk [1, 2] ["A"] [] [1, 2] [] none)).1.studentJobHistory stu
        = histOf [] stu) ∧
    (∀ stu j, ((generateWeeklyAssignments (fun _ => 0) (fun _ => 0) (fun _ => 0) 0
        (AppState.mk [1, 2] ["A"] [] [1, 2] [] none)).1.currentAssignments).lookup stu
        = some j →
      histOf (generateWeeklyAssignments (fun _ => 0) (fun _ => 0) (fun _ => 0) 0
          (AppState.mk [1, 2] ["A"] [] [1, 2] [] none)).1.studentJobHistory stu
        = histOf [] stu ++ [j] ∧
      stu ∉ (generateWeeklyAssignments (fun _ => 0) (fun _ => 0) (fun _ => 0) 0
          (AppState.mk [1, 2] ["A"] [] [1, 2] [] none)).1.remainingStudentsInCycle) :=
  generateWeeklyAssignments_per_student_update (fun _ => 0) (fun _ => 0) (fun _ => 0) 0
    (AppState.mk [1, 2] ["A"] [] [1, 2] [] none)
    (by decide) (by decide) (by decide) (by decide)

/-- C3: whenever any student is eligible for a job, the per-job selection
step assigns the job to some eligible student; the chosen student has the
job in their last two history entries only if every eligible student does
(tier 1 is honored whenever satisfiable); and if tier 1 fails but some
eligible student has never held the job, the chosen student has never held
it (tier 2 is tried before tier 3). -/
theorem assignJob_tier_preference (pool : List Nat) (st : LoopSt) (job : String)
    (h : eligibleFor pool st.assignedThisWeek ≠ []) :
    ∃ c, c ∈ eligibleFor pool st.assignedThisWeek ∧
      (assignJob pool st job).assignments = setA st.assignments c job ∧
      (job ∉ lastTwo (histOf st.history c) ∨
        ∀ x ∈ eligibleFor pool st.assignedThisWeek, job ∈ lastTwo (histOf st.history x)) ∧
      ((∀ x ∈ eligibleFor pool st.assignedThisWeek, job ∈ lastTwo (histOf st.history x)) →
        (∃ x ∈ eligibleFor pool st.assignedThisWeek, job ∉ histOf st.history x) →
        job ∉ histOf st.history c) := by
  have hE : (eligibleFor pool st.assignedThisWeek).isEmpty = false := by
    simpa [List.isEmpty_eq_false] using h
  rcases h1 : (eligibleFor pool st.assignedThisWeek).find?
      (fun s => ! (lastTwo (histOf st.history s)).contains job) with _ | c
  · have h2 := find?_none_full_of_none_recent _ _ _ h1
    have hall : ∀ x ∈ eligibleFor pool st.assignedThisWeek,
        job ∈ lastTwo (histOf st.history x) := by
      intro x hx
      have := List.find?_eq_none.mp h1 x hx
      simpa using this
    have hallfull : ∀ x ∈ eligibleFor pool st.assignedThisWeek,
        job ∈ histOf st.history x := by
      intro x hx
      have := List.find?_eq_none.mp h2 x hx
      simpa using this
    refine ⟨(eligibleFor pool st.assignedThisWeek).headI, headI_mem_of_ne_nil h, ?_, ?_, ?_⟩
    · simp only [assignJob, hE, Bool.false_eq_true, if_false, h1, h2, applyAssign]
    · exact Or.inr hall
    · intro _ hex
      obtain ⟨x, hx, hnx⟩ := hex
      exact absurd (hallfull x hx) hnx
  · have hcmem := List.mem_of_find?_eq_some h1
    have hcpred : job ∉ lastTwo (histOf st.history c) := by
      have := List.find?_some h1
      simpa using this
    refine ⟨c, hcmem, ?_, Or.inl hcpred, ?_⟩
    · simp only [assignJob, hE, Bool.false_eq_true, if_false, h1, applyAssign]
    · intro hall _
      exact absurd (hall c hcmem) hcpred

/-- Witness for C3 at a concrete loop state with one eligible student. -/
theorem assignJob_tier_preference_witness :
    ∃ c, c ∈ eligibleFor [1] (LoopSt.mk [] [] [] [] []).assignedThisWeek ∧
      (assignJob [1] (LoopSt.mk [] [] [] [] []) "A").assignments
        = setA (LoopSt.mk ([] : List (Nat × String)) [] [] [] []).assignments c "A" ∧
      ("A" ∉ lastTwo (histOf (LoopSt.mk [] [] [] [] []).history c) ∨
        ∀ x ∈ eligibleFor [1] (LoopSt.mk [] [] [] [] []).assignedThisWeek,
          "A" ∈ lastTwo (histOf (LoopSt.mk [] [] [] [] []).history x)) ∧
      ((∀ x ∈ eligibleFor [1] (LoopSt.mk [] [] [] [] []).assignedThisWeek,
          "A" ∈ lastTwo (histOf (LoopSt.mk [] [] [] [] []).history x)) →
        (∃ x ∈ eligibleFor [1] (LoopSt.mk [] [] [] [] []).assignedThisWeek,
          "A" ∉ histOf (LoopSt.mk [] [] [] [] []).history x) →
        "A" ∉ histOf (LoopSt.mk [] [] [] [] []).history c) :=
  assignJob_tier_preference [1] (LoopSt.mk [] [] [] [] []) "A" (by decide)

/-- C8 counterexample: the `onSnapshot` state loader keeps a cycle-queue
entry (`99`) that is not in the loaded student roster (`[1]`), so loaded
state is not reconciled against the roster. -/
theorem loadState_keeps_nonroster_queue_entry :
    99 ∈ (loadState (AppState.mk [1] ["A"] [] [] [] none)
        (SnapshotData.mk (some [1]) (some ["A"]) (some []) (some [99])
          (some []) none)).remainingStudentsInCycle ∧
    99 ∉ (loadState (AppState.mk [1] ["A"] [] [] [] none)
        (SnapshotData.mk (some [1]) (some ["A"]) (some []) (some [99])
          (some []) none)).students := by
  constructor
  · show (99 : Nat) ∈ [99]
    decide
  · show (99 : Nat) ∉ [1]
    decide

/-- C8 amended: the loader substitutes defaults for missing fields only; it
performs no roster-membership filtering on the cycle queue or the
assignment map and never fails, whatever the fetched data contains
(duplicates included). -/
theorem loadState_no_validation (prev : AppState) (data : SnapshotData) :
    (loadState prev data).remainingStudentsInCycle
        = data.remainingStudentsInCycle.getD [] ∧
    (loadState prev data).currentAssignments = data.currentAssignments.getD [] ∧
    (loadState prev data).students = data.students.getD DEFAULT_STUDENTS ∧
    (loadState prev data).jobTitles = data.jobTitles.getD DEFAULT_JOB_TITLES :=
  ⟨rfl, rfl, rfl, rfl⟩
